import Mathlib

/-!
Shallow embedding of the Nuvix cache library (manager + adapters) and proofs
about the frozen claims.  The TypeScript sources model JavaScript values,
JSON serialization, a Redis-like keyed store, and the cache manager logic.
External collaborators (JSON.parse, gzip+base64) are modelled as explicit
function parameters, exactly as the spec declares them out of scope.
-/

namespace NuvixCache

/-- JavaScript values as they appear in the cache layer: the JSON universe
plus JavaScript's undefined.  Numbers are modelled as integers (all numeric
values the cache itself produces are timestamps, TTLs and counters). -/
inductive JVal where
  | undefined : JVal
  | null  : JVal
  | bool  : Bool → JVal
  | num   : Int → JVal
  | str   : String → JVal
  | arr   : List JVal → JVal
  | obj   : List (String × JVal) → JVal
deriving Repr

/-- Whether a modelled JavaScript value is the undefined value. -/
def JVal.isUndefined : JVal → Bool
  | .undefined => true
  | _ => false

/-- JavaScript truthiness on modelled values (NaN is not representable). -/
def jsTruthy : JVal → Bool
  | .undefined => false
  | .null => false
  | .bool b => b
  | .num n => !(n == 0)
  | .str s => !(s == "")
  | .arr _ => true
  | .obj _ => true

/-- JavaScript property access obj[name]: undefined on non-objects and on
absent fields.  (Access on null/undefined throws; callers model that branch
explicitly.) -/
def jfield (j : JVal) (name : String) : JVal :=
  match j with
  | .obj fs => (fs.lookup name).getD .undefined
  | _ => .undefined

/-- Escape a character the way JSON.stringify escapes string contents. -/
def escChar (c : Char) : String :=
  if c = '"' then "\\\"" else if c = '\\' then "\\\\" else String.singleton c

/-- Escape a whole string for inclusion in JSON output. -/
def escStr (s : String) : String := String.join (s.data.map escChar)

mutual
/-- JSON.stringify on modelled values.  Undefined inside arrays serializes
as null and undefined-valued object fields are omitted, as in JavaScript;
serializable inputs never contain undefined at top level. -/
def JVal.serialize : JVal → String
  | .undefined => "null"
  | .null => "null"
  | .bool b => cond b "true" "false"
  | .num n => toString n
  | .str s => "\"" ++ escStr s ++ "\""
  | .arr xs => "[" ++ String.intercalate "," (serializeElems xs) ++ "]"
  | .obj fs => "\x7b" ++ String.intercalate "," (serializeFields fs) ++ "\x7d"

/-- Serialized forms of the elements of a JSON array. -/
def serializeElems : List JVal → List String
  | [] => []
  | x :: xs => x.serialize :: serializeElems xs

/-- Serialized "key":value forms of the fields of a JSON object, omitting
undefined-valued fields as JSON.stringify does. -/
def serializeFields : List (String × JVal) → List String
  | [] => []
  | (k, v) :: fs =>
      if v.isUndefined then serializeFields fs
      else ("\"" ++ escStr k ++ "\":" ++ v.serialize) :: serializeFields fs
end

/-- The compression sentinel prefixed to compressed payloads
(src/unnamed/part_011, serializeValue). -/
def sentinel : String := "__compressed__"

/-- JavaScript String.prototype.startsWith, modelled on character lists. -/
def jsStartsWith (s p : String) : Bool :=
  decide (s.data.take p.data.length = p.data)

/-- JavaScript String.prototype.substring(n), modelled on character lists. -/
def jsDrop (s : String) (n : Nat) : String := ⟨s.data.drop n⟩

/-- JavaScript a || b on an optional string (the empty string is falsy). -/
def jsOrStr : Option String → String → String
  | some s, d => if s = "" then d else s
  | none, d => d

/-- JavaScript a || b on an optional number (0 is falsy). -/
def jsOrInt : Option Int → Int → Int
  | some n, d => if n = 0 then d else n
  | none, d => d

/-- Association-list lookup (the model of keyed storage in every adapter). -/
def alGet (l : List (String × α)) (k : String) : Option α :=
  (l.find? (fun p => p.1 == k)).map (·.2)

/-- Association-list update: bind key k to v, dropping any previous binding. -/
def alSet (l : List (String × α)) (k : String) (v : α) : List (String × α) :=
  (k, v) :: l.filter (fun p => !(p.1 == k))

/-- Association-list removal of key k. -/
def alDel (l : List (String × α)) (k : String) : List (String × α) :=
  l.filter (fun p => !(p.1 == k))

/-- Per-call options accepted by the enhanced adapter (CacheOptions in
src/unnamed interfaces). -/
structure CacheOptions where
  ttl : Option Int := none
  nsOpt : Option String := none
  compression : Option Bool := none
  tags : List String := []
  metadata : Option (List (String × String)) := none
  includeMetadata : Bool := false

/-- Configuration and external collaborators of the value codec.  compressFn
and decompressFn stand for gzip+base64 encode and its inverse, jparse for
JSON.parse (none models a parse exception); all three are outside this
repository. -/
structure CodecCfg where
  enableCompression : Bool := false
  compressionThreshold : Nat := 1024
  maxValueSize : Nat := 512 * 1024
  compressFn : String → String := id
  decompressFn : String → String := id
  jparse : String → Option JVal := fun _ => none

/-- Redis.serializeValue (src/unnamed/part_011 lines 87-100): JSON-stringify
the entry, reject oversized payloads, and compress (prefixing the sentinel)
when the adapter flag allows it, the per-call flag is not explicitly false,
and the payload exceeds the threshold. -/
def serializeValue (cfg : CodecCfg) (opts : CacheOptions) (entry : JVal) :
    Except String String :=
  let serialized := entry.serialize
  if serialized.length > cfg.maxValueSize then
    .error ("Value size exceeds maximum of " ++ toString cfg.maxValueSize ++ " bytes")
  else if cfg.enableCompression && decide (opts.compression ≠ some false)
      && decide (serialized.length > cfg.compressionThreshold) then
    .ok (sentinel ++ cfg.compressFn serialized)
  else
    .ok serialized

/-- Redis.deserializeValue (src/unnamed/part_011 lines 102-110): strip the
14-character sentinel and decompress when present, then JSON.parse. -/
def deserializeValue (cfg : CodecCfg) (v : String) : Option JVal :=
  if jsStartsWith v sentinel then
    cfg.jparse (cfg.decompressFn (jsDrop v 14))
  else
    cfg.jparse v

/-- Options of the enhanced Redis adapter (src/unnamed/part_011,
setupOptions defaults). -/
structure RedisCfg extends CodecCfg where
  ns : String := "cache"
  defaultTTL : Int := 3600
  keyPfx : String := "cache:"
  tagPfx : String := "tag:"
  metaPfx : String := "meta:"
  maxKeyLength : Nat := 250

/-- Redis.buildKey (src/unnamed/part_011 lines 68-77): prepend the adapter
key prefix and the effective namespace, then reject keys whose FULL
(prefixed) form exceeds maxKeyLength. -/
def buildKey (cfg : RedisCfg) (key : String) (opts : CacheOptions) :
    Except String String :=
  let ns := jsOrStr opts.nsOpt cfg.ns
  let fullKey := cfg.keyPfx ++ ns ++ ":" ++ key
  if fullKey.length > cfg.maxKeyLength then
    .error ("Key length exceeds maximum of " ++ toString cfg.maxKeyLength ++ " characters")
  else .ok fullKey

/-- The state of the Redis server visible to the enhanced adapter: string
values, per-key TTLs, set values (used for tag indices) and hash values
(used for legacy hash-keyed entries and metadata). -/
structure RStore where
  kv : List (String × String) := []
  ttls : List (String × Int) := []
  tagSets : List (String × List String) := []
  hashes : List (String × List (String × String)) := []

/-- Redis GET. -/
def rget (st : RStore) (k : String) : Option String := alGet st.kv k

/-- Whether any Redis key (string, set or hash) exists under this name. -/
def rexists (st : RStore) (k : String) : Bool :=
  (rget st k).isSome || (alGet st.tagSets k).isSome || (alGet st.hashes k).isSome

/-- Redis SETEX: write a string value with a TTL. -/
def rsetex (st : RStore) (k : String) (ttl : Int) (v : String) : RStore :=
  { st with kv := alSet st.kv k v, ttls := alSet st.ttls k ttl }

/-- Redis SET without expiry (clears any previous TTL). -/
def rsetPlain (st : RStore) (k : String) (v : String) : RStore :=
  { st with kv := alSet st.kv k v, ttls := alDel st.ttls k }

/-- Redis DEL of one key: removes whatever lives under the name and reports
how many keys were removed (0 or 1). -/
def rdel (st : RStore) (k : String) : RStore × Nat :=
  ({ kv := alDel st.kv k, ttls := alDel st.ttls k,
     tagSets := alDel st.tagSets k, hashes := alDel st.hashes k },
   if rexists st k then 1 else 0)

/-- Redis DEL of several keys, returning the count actually removed. -/
def rdelMany (st : RStore) : List String → RStore × Nat
  | [] => (st, 0)
  | k :: ks =>
    let (st1, n) := rdel st k
    let (st2, m) := rdelMany st1 ks
    (st2, n + m)

/-- Redis EXPIRE: set a TTL on an existing key; reports whether it existed. -/
def rexpire (st : RStore) (k : String) (ttl : Int) : RStore × Bool :=
  if rexists st k then ({ st with ttls := alSet st.ttls k ttl }, true)
  else (st, false)

/-- Redis SMEMBERS of a set key (empty when absent). -/
def rsmembers (st : RStore) (k : String) : List String :=
  (alGet st.tagSets k).getD []

/-- Redis SADD of one member. -/
def rsadd (st : RStore) (k m : String) : RStore :=
  let cur := rsmembers st k
  { st with tagSets := alSet st.tagSets k (if m ∈ cur then cur else cur ++ [m]) }

/-- The value of a decimal digit character, if any. -/
def digitVal (c : Char) : Option Nat :=
  if c = '0' then some 0
  else if c = '1' then some 1
  else if c = '2' then some 2
  else if c = '3' then some 3
  else if c = '4' then some 4
  else if c = '5' then some 5
  else if c = '6' then some 6
  else if c = '7' then some 7
  else if c = '8' then some 8
  else if c = '9' then some 9
  else none

/-- Accumulating decimal parse of a digit run. -/
def parseDigits : Nat → List Char → Option Nat
  | acc, [] => some acc
  | acc, c :: cs =>
    match digitVal c with
    | some d => parseDigits (acc * 10 + d) cs
    | none => none

/-- Redis's parse of a stored string as an integer (an optional minus sign
followed by decimal digits), modelled on character lists. -/
def parseIntR (s : String) : Option Int :=
  match s.data with
  | [] => none
  | '-' :: cs =>
    match cs with
    | [] => none
    | _ => (parseDigits 0 cs).map (fun n => -(n : Int))
  | cs => (parseDigits 0 cs).map (fun n => (n : Int))

/-- Redis INCRBY: create the key at the given amount, or add to the stored
decimal integer (which keeps its TTL); errors when the stored value is not
an integer. -/
def rincrby (st : RStore) (k : String) (amount : Int) :
    Except String (RStore × Int) :=
  match rget st k with
  | none => .ok ({ st with kv := alSet st.kv k (toString amount) }, amount)
  | some s =>
    match parseIntR s with
    | some n => .ok ({ st with kv := alSet st.kv k (toString (n + amount)) }, n + amount)
    | none => .error "value is not an integer or out of range"

/-- Redis HSET of one field of a hash key. -/
def rhset (st : RStore) (k field v : String) : RStore :=
  { st with hashes := alSet st.hashes k (alSet ((alGet st.hashes k).getD []) field v) }

/-- Redis HSET of a whole record of fields. -/
def rhsetAll (st : RStore) (k : String) (m : List (String × String)) : RStore :=
  m.foldl (fun s p => rhset s k p.1 p.2) st

/-- Redis HGET. -/
def rhget (st : RStore) (k field : String) : Option String :=
  (alGet st.hashes k).bind (fun h => alGet h field)

/-- The expiresAt of an optional absolute expiry (undefined when absent, so
JSON.stringify omits the field). -/
def optNum : Option Int → JVal
  | some n => .num n
  | none => .undefined

/-- The metadata field of an entry (undefined when absent). -/
def optMeta : Option (List (String × String)) → JVal
  | some m => .obj (m.map (fun p => (p.1, JVal.str p.2)))
  | none => .undefined

/-- The CacheEntry envelope built by Redis.set (src/unnamed/part_011 lines
137-142): data, creation time, optional absolute expiry, optional metadata. -/
def mkEntry (value : JVal) (createdAt : Int) (expiresAt : Option Int)
    (metadata : Option (List (String × String))) : JVal :=
  .obj [("data", value), ("createdAt", .num createdAt),
        ("expiresAt", optNum expiresAt), ("metadata", optMeta metadata)]

/-- The effective TTL of an enhanced-adapter call: options.ttl ||
this.defaultTTL (0 is falsy and falls back to the default). -/
def effTTL (cfg : RedisCfg) (opts : CacheOptions) : Int :=
  jsOrInt opts.ttl cfg.defaultTTL

/-- The absolute expiry Redis.set computes: now + ttl seconds when the
effective TTL is positive, absent otherwise. -/
def effExpiresAt (cfg : RedisCfg) (opts : CacheOptions) (now : Int) : Option Int :=
  if effTTL cfg opts > 0 then some (now + effTTL cfg opts * 1000) else none

/-- The envelope Redis.set wraps around a value at write time. -/
def setEntry (cfg : RedisCfg) (opts : CacheOptions) (value : JVal) (now : Int) : JVal :=
  mkEntry value now (effExpiresAt cfg opts now) opts.metadata

/-- Tag handling inside Redis.set/mset: SADD the full key to each tag index
and, for non-permanent entries, apply the same TTL to the index. -/
def applyTags (cfg : RedisCfg) (st : RStore) (redisKey : String)
    (tags : List String) (ttl : Int) : RStore :=
  tags.foldl (fun s t =>
    let tk := cfg.tagPfx ++ t
    let s1 := rsadd s tk redisKey
    if ttl > 0 then (rexpire s1 tk ttl).1 else s1) st

/-- Redis.set (src/unnamed/part_011 lines 131-181): build the key, apply the
effective TTL (options.ttl || defaultTTL), wrap the value in an envelope,
serialize (possibly compressing), then SETEX/SET, index tags, and store
metadata in a side hash.  Any error is caught and reported as false with
the store unchanged. -/
def Redis.set (cfg : RedisCfg) (st : RStore) (key : String) (value : JVal)
    (opts : CacheOptions) (now : Int) : RStore × Bool :=
  match buildKey cfg key opts with
  | .error _ => (st, false)
  | .ok redisKey =>
    let ttl := effTTL cfg opts
    let entry := setEntry cfg opts value now
    match serializeValue cfg.toCodecCfg opts entry with
    | .error _ => (st, false)
    | .ok sv =>
      let st1 := if ttl > 0 then rsetex st redisKey ttl sv else rsetPlain st redisKey sv
      let st2 := applyTags cfg st1 redisKey opts.tags ttl
      let st3 :=
        match opts.metadata with
        | some m =>
          let mk := cfg.metaPfx ++ redisKey
          let s := rhsetAll st2 mk m
          if ttl > 0 then (rexpire s mk ttl).1 else s
        | none => st2
      (st3, true)

/-- Lazy-expiry test of Redis.get/mget: entry.expiresAt && entry.expiresAt
< Date.now().  Entries written by this adapter always carry a numeric or
absent expiresAt; other shapes are modelled as not expired. -/
def entryExpired (entry : JVal) (now : Int) : Bool :=
  match jfield entry "expiresAt" with
  | .num t => !(t == 0) && decide (t < now)
  | _ => false

/-- Redis.get (src/unnamed/part_011 lines 183-213): read the raw value (a
missing or empty value is a miss), deserialize (a parse failure, or a
property access on a non-object parse result such as null, is caught and
reported as null), enforce lazy expiry (deleting the expired key), then
return the whole envelope or just its data field. -/
def Redis.get (cfg : RedisCfg) (st : RStore) (key : String)
    (opts : CacheOptions) (now : Int) : JVal × RStore :=
  match buildKey cfg key opts with
  | .error _ => (.null, st)
  | .ok rk =>
    match rget st rk with
    | none => (.null, st)
    | some s =>
      if s = "" then (.null, st)
      else
        match deserializeValue cfg.toCodecCfg s with
        | none => (.null, st)
        | some .null => (.null, st)
        | some .undefined => (.null, st)
        | some entry =>
          if entryExpired entry now then (.null, (rdel st rk).1)
          else if opts.includeMetadata then (entry, st)
          else (jfield entry "data", st)

/-- buildKey over a list of keys (keys.map in the source; a failure on any
key aborts the whole call into the catch branch). -/
def buildKeys (cfg : RedisCfg) (opts : CacheOptions) :
    List String → Except String (List String)
  | [] => .ok []
  | k :: ks => do
    let rk ← buildKey cfg k opts
    let rks ← buildKeys cfg opts ks
    .ok (rk :: rks)

/-- Per-value step of Redis.mget: the result pushed for one fetched value
and whether the key must be lazily deleted as expired. -/
def mgetOne (cfg : CodecCfg) (now : Int) : Option String → JVal × Bool
  | none => (.null, false)
  | some s =>
    if s = "" then (.null, false)
    else
      match deserializeValue cfg s with
      | none => (.null, false)
      | some .null => (.null, false)
      | some .undefined => (.null, false)
      | some entry =>
        if entryExpired entry now then (.null, true)
        else (jfield entry "data", false)

/-- Redis.mget (src/unnamed/part_011 lines 215-253): one MGET round trip
against the current store, then per-value deserialization and lazy expiry;
expired keys are deleted fire-and-forget.  Any outer error yields one null
per requested key. -/
def Redis.mget (cfg : RedisCfg) (st : RStore) (keys : List String)
    (opts : CacheOptions) (now : Int) : List JVal × RStore :=
  match buildKeys cfg opts keys with
  | .error _ => (keys.map (fun _ => .null), st)
  | .ok rks =>
    let outs := rks.map (fun rk => mgetOne cfg.toCodecCfg now (rget st rk))
    let expired := ((rks.zip outs).filter (fun p => p.2.2)).map Prod.fst
    (outs.map Prod.fst, expired.foldl (fun s k => (rdel s k).1) st)

/-- Redis.mdel (src/unnamed/part_011 lines 300-310): one DEL of all built
keys, returning the count actually removed (0 on any error). -/
def Redis.mdel (cfg : RedisCfg) (st : RStore) (keys : List String)
    (opts : CacheOptions) : Nat × RStore :=
  match buildKeys cfg opts keys with
  | .error _ => (0, st)
  | .ok rks =>
    let (st1, n) := rdelMany st rks
    (n, st1)

/-- Redis.flushByTags (src/unnamed/part_011 lines 395-418): read the member
sets of every given tag against the current store, then in one pipeline
delete every tag index key and the deduplicated union of member keys. -/
def Redis.flushByTags (cfg : RedisCfg) (st : RStore) (tags : List String) :
    RStore × Bool :=
  let allKeys := ((tags.map (fun t => rsmembers st (cfg.tagPfx ++ t))).flatten).dedup
  let st1 := tags.foldl (fun s t => (rdel s (cfg.tagPfx ++ t)).1) st
  let st2 := allKeys.foldl (fun s k => (rdel s k).1) st1
  (st2, true)

/-- Redis.increment (src/unnamed/part_011 lines 344-359): one atomic INCRBY
(which creates the key when absent), then EXPIRE with the effective TTL on
EVERY call whenever that TTL is positive; errors are re-raised. -/
def Redis.increment (cfg : RedisCfg) (st : RStore) (key : String)
    (amount : Int) (opts : CacheOptions) : Except String (Int × RStore) :=
  match buildKey cfg key opts with
  | .error e => .error e
  | .ok rk =>
    match rincrby st rk amount with
    | .error e => .error e
    | .ok (st1, result) =>
      let ttl := jsOrInt opts.ttl cfg.defaultTTL
      let st2 := if ttl > 0 then (rexpire st1 rk ttl).1 else st1
      .ok (result, st2)

/-- Redis.decrement (src/unnamed/part_011 lines 361-376): DECRBY (modelled
as INCRBY of the negated amount) followed by the same per-call EXPIRE. -/
def Redis.decrement (cfg : RedisCfg) (st : RStore) (key : String)
    (amount : Int) (opts : CacheOptions) : Except String (Int × RStore) :=
  match buildKey cfg key opts with
  | .error e => .error e
  | .ok rk =>
    match rincrby st rk (-amount) with
    | .error e => .error e
    | .ok (st1, result) =>
      let ttl := jsOrInt opts.ttl cfg.defaultTTL
      let st2 := if ttl > 0 then (rexpire st1 rk ttl).1 else st1
      .ok (result, st2)

/-- Whether a modelled JavaScript value is null. -/
def JVal.isNull : JVal → Bool
  | .null => true
  | _ => false

/-- Legacy Redis.save of the enhanced adapter (src/unnamed/part_011 lines
527-550): a falsy key, or data strictly equal to undefined or null, is
rejected with false and nothing written; with a hash the value is stored
as a field of the hash at the built key; otherwise it degrades to the
enhanced set. -/
def Redis.save (cfg : RedisCfg) (st : RStore) (key : String) (data : JVal)
    (hash : String) (now : Int) : Bool × RStore :=
  if key = "" || data.isUndefined || data.isNull then (false, st)
  else if hash ≠ "" then
    match buildKey cfg key {} with
    | .error _ => (false, st)
    | .ok hk =>
      let value := (JVal.obj [("time", .num (now / 1000)), ("data", data)]).serialize
      (true, rhset st hk hash value)
  else
    let (st1, ok) := Redis.set cfg st key data {} now
    (ok, st1)

/-- Entries of the basic in-memory adapter's store. -/
structure MemEntry where
  time : Int
  data : JVal

/-- Memory.save (src/src/adapters/memory.ts lines 21-33): any falsy key or
falsy data is rejected with the boolean false and nothing stored; otherwise
the entry is stored with the current epoch-seconds time and the data itself
is returned. -/
def Memory.save (st : List (String × MemEntry)) (key : String) (data : JVal)
    (nowSec : Int) : JVal × List (String × MemEntry) :=
  if key = "" || !(jsTruthy data) then (.bool false, st)
  else (data, alSet st key ⟨nowSec, data⟩)

/-- Memory.load (src/src/adapters/memory.ts lines 13-19): a stored entry is
returned while its time + ttl is still in the future, false otherwise. -/
def Memory.load (st : List (String × MemEntry)) (key : String) (ttl : Int)
    (nowSec : Int) : JVal :=
  match (if key = "" then none else alGet st key) with
  | some e => if nowSec < e.time + ttl then e.data else .bool false
  | none => .bool false

/-- Legacy Redis adapter save (src/unnamed/part_012 lines 35-55): any falsy
key or falsy data is rejected with the boolean false; the hash defaults to
the key itself; the timestamped value is stored as a field of the hash at
the primary key and the data returned. -/
def RedisL.save (st : RStore) (key : String) (data : JVal) (hash : String)
    (now : Int) : JVal × RStore :=
  if key = "" || !(jsTruthy data) then (.bool false, st)
  else
    let h := if hash = "" then key else hash
    let value := (JVal.obj [("time", .num (now / 1000)), ("data", data)]).serialize
    (data, rhset st key h value)

/-- RedisAdapter key construction (src/src/adapters/redis.ts getKey):
namespace:key, or namespace:key:hash when a truthy hash is given. -/
def getKeyB (ns key : String) (hash : Option String) : String :=
  match hash with
  | some h => if h = "" then ns ++ ":" ++ key else ns ++ ":" ++ key ++ ":" ++ h
  | none => ns ++ ":" ++ key

/-- RedisAdapter.set (src/src/adapters/redis.ts lines 41-61): JSON-stringify
and SET (with EX when a truthy ttl is given); true on success. -/
def RedisAdapter.set (ns : String) (st : RStore) (key : String) (value : JVal)
    (ttl : Option Int) (hash : Option String) : RStore × Bool :=
  let fk := getKeyB ns key hash
  let sv := value.serialize
  match ttl with
  | some t => if t = 0 then (rsetPlain st fk sv, true) else (rsetex st fk t sv, true)
  | none => (rsetPlain st fk sv, true)

/-- RedisAdapter.delete (src/src/adapters/redis.ts lines 75-84): issues DEL
and returns true whenever the backend call succeeds, ignoring the DEL count,
so deleting an absent key also reports true. -/
def RedisAdapter.delete (ns : String) (st : RStore) (key : String)
    (hash : Option String) : Bool × RStore :=
  let (st1, _n) := rdel st (getKeyB ns key hash)
  (true, st1)

/-- RedisAdapter.mset (src/src/adapters/redis.ts lines 106-128): one
pipeline that SETs every entry (with EX when a truthy ttl is given). -/
def RedisAdapter.mset (ns : String) (st : RStore) (data : List (String × JVal))
    (hash : Option String) (ttl : Option Int) : Bool × RStore :=
  let st1 := data.foldl (fun s p =>
    let fk := getKeyB ns p.1 hash
    let sv := p.2.serialize
    match ttl with
    | some t => if t = 0 then rsetPlain s fk sv else rsetex s fk t sv
    | none => rsetPlain s fk sv) st
  (true, st1)

/-- Lifecycle notifications emitted by the cache manager. -/
inductive MEvent where
  | hitEv | missEv | setEv | deleteEv | clearEv | errorEv
deriving DecidableEq, Repr

/-- Cache.normalizeKey (src/src/manager.ts lines 271-278): reject raw keys
longer than maxKeyLength BEFORE any adapter prefixing, then case-fold
unless case sensitivity is on. -/
def Cache.normalizeKey (maxKeyLength : Nat) (caseSensitive : Bool)
    (key : String) : Except String String :=
  if key.length > maxKeyLength then
    .error ("Key length exceeds maximum allowed length of "
      ++ toString maxKeyLength ++ " characters")
  else .ok (if caseSensitive then key else key.toLower)

/-- Cache.validateValue (src/src/manager.ts lines 284-318): undefined is
rejected; JSON.stringify and the recursive cycle scan cannot fail on the
tree-shaped values representable here (cyclic objects have no counterpart
in an inductive type), so the undefined check is the only failure. -/
def Cache.validateValue (v : JVal) : Except String Unit :=
  if v.isUndefined then .error "Invalid value: Cannot cache undefined values"
  else .ok ()

/-- One pass of the Cache.retry loop (src/src/manager.ts lines 325-346)
starting at attempt index i with the current backoff delay, where remaining
counts the loop iterations still allowed after this one (retries - i).
Returns the outcome, the number of times the operation was invoked, and the
list of waits (delay + jitter) slept between consecutive attempts. -/
def retryFrom (op : Nat → Except E A) (jitter : Nat → Nat) (i : Nat)
    (delay : Nat) : Nat → Except E A × Nat × List Nat
  | 0 => (op i, 1, [])
  | n + 1 =>
    match op i with
    | .ok a => (.ok a, 1, [])
    | .error _ =>
      let rest := retryFrom op jitter (i + 1) (delay * 2) n
      (rest.1, rest.2.1 + 1, (delay + jitter i) :: rest.2.2)

/-- Cache.retry (src/src/manager.ts lines 325-346): the loop runs for
attempt indices 0..maxRetries, so the operation is invoked up to
maxRetries + 1 times; between consecutive attempts it sleeps the current
delay plus jitter and doubles the delay; after the last failed attempt the
last error is thrown. -/
def Cache.retry (op : Nat → Except E A) (maxRetries retryDelay : Nat)
    (jitter : Nat → Nat) : Except E A × Nat × List Nat :=
  retryFrom op jitter 0 retryDelay maxRetries

/-- Cache.get of the legacy manager API (src/src/manager.ts lines 375-407),
after key normalization: retry the adapter get, classify the outcome as
hit or miss, and on post-retry failure emit a single error event and return
the null sentinel instead of raising. -/
def Cache.get (adapterGet : Nat → Except String (Option JVal))
    (maxRetries retryDelay : Nat) (jitter : Nat → Nat) :
    Option JVal × List MEvent :=
  match (Cache.retry adapterGet maxRetries retryDelay jitter).1 with
  | .ok r => (r, [if r.isSome then MEvent.hitEv else MEvent.missEv])
  | .error _ => (none, [MEvent.errorEv])

/-- Validation sweep of Cache.mset over all values of the batch. -/
def validateAll : List JVal → Except String Unit
  | [] => .ok ()
  | v :: vs =>
    match Cache.validateValue v with
    | .error e => .error e
    | .ok _ => validateAll vs

/-- Cache.mset (src/src/manager.ts lines 624-646): validate every value
before issuing any write; a validation failure emits one error event,
re-raises, and the adapter is never called, leaving the store unchanged. -/
def Cache.mset (ns : String) (st : RStore) (data : List (String × JVal))
    (hash : Option String) (ttl : Option Int) :
    Except String Unit × RStore × List MEvent :=
  match validateAll (data.map Prod.snd) with
  | .error e => (.error e, st, [MEvent.errorEv])
  | .ok _ =>
    let (ok, st1) := RedisAdapter.mset ns st data hash ttl
    if ok then (.ok (), st1, [MEvent.setEv])
    else (.error "Failed to set values", st1, [MEvent.errorEv])

/-- Key normalization of the enhanced cache (src/unnamed/part_007): case
folding only, no length check. -/
def normalizeKeyE (caseSensitive : Bool) (key : String) : String :=
  if caseSensitive then key else key.toLower

/-- Effective options passed to the adapter by the enhanced cache: the
manager default namespace, overridden by any per-call namespace. -/
def withNs (dns : String) (opts : CacheOptions) : CacheOptions :=
  { opts with nsOpt := some (opts.nsOpt.getD dns) }

/-- Enhanced Cache.delete (src/unnamed/part_007 lines 214-240): normalize,
default the namespace, delegate to the adapter mdel on the singleton list,
and report whether the count of removed keys is positive. -/
def EnhCache.delete (cfg : RedisCfg) (caseSensitive : Bool) (dns : String)
    (st : RStore) (key : String) (opts : CacheOptions) : Bool × RStore :=
  let k := normalizeKeyE caseSensitive key
  let (n, st1) := Redis.mdel cfg st [k] (withNs dns opts)
  (decide (n > 0), st1)

/-- Enhanced Cache.get (src/unnamed/part_007 lines 126-152): normalize and
default the namespace, call the adapter once (no retry), record get or
get_error telemetry, and re-raise any adapter error. -/
def EnhCache.get (adapterGet : String → CacheOptions → Except String JVal)
    (caseSensitive : Bool) (dns : String) (key : String)
    (opts : CacheOptions) : Except String JVal × List String :=
  match adapterGet (normalizeKeyE caseSensitive key) (withNs dns opts) with
  | .ok v => (.ok v, ["get"])
  | .error e => (.error e, ["get_error"])

/-- Whether a fallible computation succeeded. -/
def exOk : Except ε α → Bool
  | .ok _ => true
  | .error _ => false

/-- A raw key of 240 characters, below the adapter's default 250-character
limit. -/
def k240 : String := ⟨List.replicate 240 'a'⟩

/-- A concrete JSON.parse table sufficient for the counter scenario: the
decimal strings INCRBY/DECRBY leave in the store parse to bare numbers. -/
def counterParse : String → Option JVal :=
  fun s => if s = "3" then some (.num 3)
    else if s = "4" then some (.num 4)
    else if s = "5" then some (.num 5)
    else none

/-- Adapter configuration for the counter scenario: all source defaults,
with JSON.parse modelled by the concrete table above. -/
def counterCfg : RedisCfg := { jparse := counterParse }

/-- The envelope stored by the concrete round-trip scenario: value "x"
written at time 0 with the default 3600-second TTL. -/
def c1Entry : JVal :=
  .obj [("data", .str "x"), ("createdAt", .num 0),
        ("expiresAt", .num 3600000), ("metadata", .undefined)]

/-- Adapter configuration exercising the compressed branch: compression on
with a zero threshold, the external gzip+base64 pair instantiated with the
identity, and JSON.parse modelled by a one-entry table. -/
def c1Cfg : RedisCfg :=
  { enableCompression := true, compressionThreshold := 0,
    jparse := fun s => if s = c1Entry.serialize then some c1Entry else none }

/-- JSON.parse table for the batched-read scenario: the store token A holds
a live envelope, the token B an expired one. -/
def c5Cfg : RedisCfg :=
  { jparse := fun s =>
      if s = "A" then some (.obj [("data", .str "va"), ("expiresAt", .num 99)])
      else if s = "B" then some (.obj [("data", .str "vb"), ("expiresAt", .num 10)])
      else none }

/-- Store for the batched-read scenario: keys a and b are present, c is
absent. -/
def c5Store : RStore :=
  { kv := [("cache:cache:a", "A"), ("cache:cache:b", "B")] }

/- ===== Helper lemmas about the store model ===== -/

theorem alGet_alDel (l : List (String × α)) (j k : String) :
    alGet (alDel l j) k = if k = j then none else alGet l k := by
  induction l with
  | nil => simp [alGet, alDel]
  | cons p l ih =>
    obtain ⟨a, b⟩ := p
    by_cases haj : a = j
    · subst haj
      simp only [alDel, List.filter_cons, beq_self_eq_true, Bool.not_true,
        Bool.false_eq_true, if_false]
      rw [show List.filter (fun p => !(p.1 == a)) l = alDel l a from rfl, ih]
      by_cases hk : k = a
      · simp [hk]
      · have hak : (a == k) = false := beq_eq_false_iff_ne.mpr (fun h => hk h.symm)
        simp [alGet, List.find?_cons, hak, hk]
    · have hb : ((a, b).1 == j) = false := beq_eq_false_iff_ne.mpr haj
      simp only [alDel, List.filter_cons, hb, Bool.not_false, if_true]
      by_cases hak : a = k
      · have hakb : (a == k) = true := beq_iff_eq.mpr hak
        have hkj : ¬ (k = j) := fun h => haj (hak.trans h)
        simp [alGet, List.find?_cons, hakb, hkj]
      · have hakb : (a == k) = false := beq_eq_false_iff_ne.mpr hak
        simp only [alGet, List.find?_cons, hakb]
        rw [show List.filter (fun p => !(p.1 == j)) l = alDel l j from rfl]
        have := ih
        simp only [alGet, alDel] at this ⊢
        rw [this]

theorem alGet_alSet (l : List (String × α)) (j k : String) (v : α) :
    alGet (alSet l j v) k = if k = j then some v else alGet l k := by
  by_cases hkj : k = j
  · subst hkj
    simp [alSet, alGet, List.find?_cons]
  · have hb : (j == k) = false := beq_eq_false_iff_ne.mpr (fun h => hkj h.symm)
    have hd := alGet_alDel l j k
    rw [if_neg hkj] at hd
    simp only [alSet, alGet, List.find?_cons, hb]
    rw [if_neg hkj]
    simp only [alGet, alDel] at hd
    exact hd

theorem rget_rdel (st : RStore) (j k : String) :
    rget (rdel st j).1 k = if k = j then none else rget st k := by
  simp [rget, rdel, alGet_alDel]

theorem tsGet_rdel (st : RStore) (j k : String) :
    alGet (rdel st j).1.tagSets k = if k = j then none else alGet st.tagSets k := by
  simp [rdel, alGet_alDel]

theorem rget_foldl_rdel (ks : List String) (st : RStore) (k : String) :
    rget (ks.foldl (fun s j => (rdel s j).1) st) k
      = if k ∈ ks then none else rget st k := by
  induction ks generalizing st with
  | nil => simp
  | cons j ks ih =>
    simp only [List.foldl_cons, ih, rget_rdel]
    by_cases hk : k = j
    · simp [hk]
    · by_cases hm : k ∈ ks <;> simp [hk, hm]

theorem tsGet_foldl_rdel (ks : List String) (st : RStore) (k : String) :
    alGet ((ks.foldl (fun s j => (rdel s j).1) st)).tagSets k
      = if k ∈ ks then none else alGet st.tagSets k := by
  induction ks generalizing st with
  | nil => simp
  | cons j ks ih =>
    simp only [List.foldl_cons, ih, tsGet_rdel]
    by_cases hk : k = j
    · simp [hk]
    · by_cases hm : k ∈ ks <;> simp [hk, hm]

/- ===== Lemmas about the compression sentinel and serialized shapes ===== -/

theorem jsDrop_sentinel_append (x : String) : jsDrop (sentinel ++ x) 14 = x := by
  unfold jsDrop
  rw [String.data_append, show (14 : Nat) = sentinel.data.length from rfl,
    List.drop_left]

theorem jsStartsWith_sentinel_append (x : String) :
    jsStartsWith (sentinel ++ x) sentinel = true := by
  unfold jsStartsWith
  rw [String.data_append, List.take_left]
  simp

theorem serialize_obj_data (fs : List (String × JVal)) :
    (JVal.obj fs).serialize.data
      = '\x7b' :: ((String.intercalate "," (serializeFields fs)).data
          ++ ("\x7d" : String).data) := by
  simp only [JVal.serialize]
  rw [String.data_append, String.data_append,
    show ("\x7b" : String).data = ['\x7b'] from rfl]
  simp

theorem serialize_obj_not_sentinel (fs : List (String × JVal)) :
    jsStartsWith (JVal.obj fs).serialize sentinel = false := by
  unfold jsStartsWith
  rw [serialize_obj_data, decide_eq_false_iff_not]
  intro h
  rw [show sentinel.data.length = 13 + 1 from rfl, List.take_succ_cons,
    show sentinel.data = '_' :: ("_compressed__" : String).data from rfl] at h
  injection h with h1 _
  exact absurd h1 (by decide)

theorem append_sentinel_ne_empty (x : String) : sentinel ++ x ≠ "" := by
  intro h
  have h2 := congrArg String.data h
  rw [String.data_append,
    show sentinel.data = '_' :: ("_compressed__" : String).data from rfl] at h2
  simp at h2

theorem serialize_obj_ne_empty (fs : List (String × JVal)) :
    (JVal.obj fs).serialize ≠ "" := by
  intro h
  have h2 := congrArg String.data h
  rw [serialize_obj_data] at h2
  simp at h2

/- ===== Write operations only touch the parts of the store they target ===== -/

theorem kv_rexpire (st : RStore) (k : String) (ttl : Int) :
    ((rexpire st k ttl).1).kv = st.kv := by
  unfold rexpire
  split <;> rfl

theorem kv_applyTags (cfg : RedisCfg) (st : RStore) (rk : String)
    (tags : List String) (ttl : Int) :
    (applyTags cfg st rk tags ttl).kv = st.kv := by
  induction tags generalizing st with
  | nil => rfl
  | cons t ts ih =>
    unfold applyTags at ih ⊢
    simp only [List.foldl_cons]
    rw [ih]
    by_cases h : ttl > 0 <;> simp [h, kv_rexpire, rsadd]

theorem kv_rhsetAll (st : RStore) (k : String) (m : List (String × String)) :
    (rhsetAll st k m).kv = st.kv := by
  induction m generalizing st with
  | nil => rfl
  | cons p ps ih =>
    unfold rhsetAll at ih ⊢
    simp only [List.foldl_cons]
    rw [ih]
    rfl

theorem serializeValue_roundtrip (cfg : CodecCfg) (opts : CacheOptions)
    (fs : List (String × JVal)) (sv : String)
    (hcd : ∀ s, cfg.decompressFn (cfg.compressFn s) = s)
    (hjp : cfg.jparse (JVal.obj fs).serialize = some (JVal.obj fs))
    (hser : serializeValue cfg opts (JVal.obj fs) = .ok sv) :
    deserializeValue cfg sv = some (JVal.obj fs) ∧ sv ≠ "" := by
  simp only [serializeValue] at hser
  by_cases hsize : (JVal.obj fs).serialize.length > cfg.maxValueSize
  · rw [if_pos hsize] at hser
    cases hser
  · rw [if_neg hsize] at hser
    split at hser
    · injection hser with hsv
      subst hsv
      refine ⟨?_, append_sentinel_ne_empty _⟩
      unfold deserializeValue
      rw [if_pos (jsStartsWith_sentinel_append _), jsDrop_sentinel_append, hcd, hjp]
    · injection hser with hsv
      subst hsv
      refine ⟨?_, serialize_obj_ne_empty fs⟩
      unfold deserializeValue
      rw [if_neg (by rw [serialize_obj_not_sentinel fs]; exact Bool.false_ne_true), hjp]

/- ===== C1 ===== -/

/-- C1: for every JSON-serializable value v and key k, the enhanced
set(k, v) followed by get(k) before the TTL has elapsed returns v, whether
or not the codec compressed the payload, because the 14-character sentinel
prefixed to compressed payloads never collides with an uncompressed
serialized envelope (which is a JSON object and so begins with a brace). -/
theorem set_get_roundtrip (cfg : RedisCfg) (st : RStore) (k : String) (v : JVal)
    (opts : CacheOptions) (tset tget : Int) (rk : String)
    (hkey : buildKey cfg k opts = .ok rk)
    (hinc : opts.includeMetadata = false)
    (hcd : ∀ s, cfg.decompressFn (cfg.compressFn s) = s)
    (hjp : cfg.jparse (setEntry cfg opts v tset).serialize
        = some (setEntry cfg opts v tset))
    (hsize : ¬ (setEntry cfg opts v tset).serialize.length > cfg.maxValueSize)
    (hfresh : effTTL cfg opts > 0 → tget < tset + effTTL cfg opts * 1000) :
    (Redis.set cfg st k v opts tset).2 = true ∧
    (Redis.get cfg (Redis.set cfg st k v opts tset).1 k opts tget).1 = v ∧
    jsStartsWith (setEntry cfg opts v tset).serialize sentinel = false := by
  have hobj : setEntry cfg opts v tset
      = JVal.obj [("data", v), ("createdAt", .num tset),
          ("expiresAt", optNum (effExpiresAt cfg opts tset)),
          ("metadata", optMeta opts.metadata)] := rfl
  obtain ⟨sv, hser⟩ : ∃ sv,
      serializeValue cfg.toCodecCfg opts (setEntry cfg opts v tset) = .ok sv := by
    simp only [serializeValue]
    rw [if_neg hsize]
    split
    · exact ⟨_, rfl⟩
    · exact ⟨_, rfl⟩
  have hround := serializeValue_roundtrip cfg.toCodecCfg opts _ sv hcd
    (by rw [← hobj]; exact hjp) (by rw [← hobj]; exact hser)
  have hkvset : (Redis.set cfg st k v opts tset).1.kv = alSet st.kv rk sv := by
    simp only [Redis.set, hkey, hser]
    cases hm : opts.metadata with
    | none =>
      simp only [hm]
      rw [kv_applyTags]
      by_cases ht : effTTL cfg opts > 0 <;> simp [ht, rsetex, rsetPlain]
    | some m =>
      simp only [hm]
      by_cases ht : effTTL cfg opts > 0
      · rw [if_pos ht, kv_rexpire, kv_rhsetAll, kv_applyTags, if_pos ht]
        rfl
      · rw [if_neg ht, kv_rhsetAll, kv_applyTags, if_neg ht]
        rfl
  have hrget : rget (Redis.set cfg st k v opts tset).1 rk = some sv := by
    unfold rget
    rw [hkvset, alGet_alSet]
    simp
  have hexpF : entryExpired (JVal.obj [("data", v), ("createdAt", JVal.num tset),
      ("expiresAt", optNum (effExpiresAt cfg opts tset)),
      ("metadata", optMeta opts.metadata)]) tget = false := by
    unfold entryExpired
    rw [show jfield (JVal.obj [("data", v), ("createdAt", JVal.num tset),
        ("expiresAt", optNum (effExpiresAt cfg opts tset)),
        ("metadata", optMeta opts.metadata)]) "expiresAt"
      = optNum (effExpiresAt cfg opts tset) from rfl]
    cases heff : effExpiresAt cfg opts tset with
    | none => rfl
    | some texp =>
      simp only [optNum]
      have hnotlt : ¬ texp < tget := by
        unfold effExpiresAt at heff
        split at heff
        · injection heff with h
          have := hfresh (by assumption)
          omega
        · cases heff
      simp [hnotlt]
  refine ⟨?_, ?_, ?_⟩
  · simp only [Redis.set, hkey, hser]
  · simp only [Redis.get, hkey, hrget]
    rw [if_neg hround.2]
    rw [hround.1]
    simp only [hexpF, Bool.false_eq_true, if_false, hinc]
    rfl
  · rw [hobj]
    exact serialize_obj_not_sentinel _

/-- Witness for C1 at a concrete input exercising the compressed branch:
set then get of "x" under c1Cfg round-trips. -/
theorem set_get_roundtrip_witness :
    (Redis.set c1Cfg {} "k" (.str "x") {} 0).2 = true ∧
    (Redis.get c1Cfg (Redis.set c1Cfg {} "k" (.str "x") {} 0).1 "k" {} 1000).1
      = .str "x" ∧
    jsStartsWith (setEntry c1Cfg {} (.str "x") 0).serialize sentinel = false :=
  set_get_roundtrip c1Cfg {} "k" (.str "x") {} 0 1000 "cache:cache:k"
    rfl rfl (fun _ => rfl) rfl (by decide) (fun _ => by decide)

/- ===== C2 ===== -/

theorem retryFrom_count_le (op : Nat → Except E A) (jitter : Nat → Nat) :
    ∀ (n i delay : Nat), (retryFrom op jitter i delay n).2.1 ≤ n + 1
  | 0, i, delay => by simp [retryFrom]
  | n + 1, i, delay => by
    simp only [retryFrom]
    cases hop : op i with
    | ok a => simp
    | error e =>
      show (retryFrom op jitter (i + 1) (delay * 2) n).2.1 + 1 ≤ n + 1 + 1
      have := retryFrom_count_le op jitter n (i + 1) (delay * 2)
      omega

theorem retryFrom_all_fail (op : Nat → Except E A) (jitter : Nat → Nat)
    (e : Nat → E) :
    ∀ (n i delay : Nat), (∀ j, i ≤ j → j ≤ i + n → op j = .error (e j)) →
      retryFrom op jitter i delay n
        = (.error (e (i + n)), n + 1,
           (List.range n).map (fun m => delay * 2 ^ m + jitter (i + m)))
  | 0, i, delay, h => by
    simp only [retryFrom]
    rw [h i (Nat.le_refl i) (Nat.le_add_right i 0)]
    simp
  | n + 1, i, delay, h => by
    simp only [retryFrom]
    rw [h i (Nat.le_refl i) (Nat.le_add_right i (n + 1))]
    rw [retryFrom_all_fail op jitter e n (i + 1) (delay * 2)
      (fun j h1 h2 => h j (by omega) (by omega))]
    have hlist : (List.range (n + 1)).map (fun m => delay * 2 ^ m + jitter (i + m))
        = (delay + jitter i)
          :: (List.range n).map (fun m => delay * 2 * 2 ^ m + jitter (i + 1 + m)) := by
      rw [List.range_succ_eq_map, List.map_cons, List.map_map]
      congr 1
      · simp
      · apply List.map_congr_left
        intro m _
        have h1 : delay * 2 ^ (m + 1) = delay * 2 * 2 ^ m := by ring
        have h2 : i + (m + 1) = i + 1 + m := by omega
        simp [Function.comp, Nat.succ_eq_add_one, h1, h2]
    rw [hlist, Nat.add_assoc, Nat.add_comm 1 n]

/-- C2 counterexample: with the default maxRetries = 3 and a persistently
failing backend operation, the retry helper invokes the operation 4 times,
refuting "at most N times where N is the configured maxRetries". -/
theorem retry_invocations_exceed_maxRetries :
    (Cache.retry (fun _ => (Except.error "boom" : Except String Unit)) 3 100
      (fun _ => 0)).2.1 = 4 ∧
    ¬ ((Cache.retry (fun _ => (Except.error "boom" : Except String Unit)) 3 100
      (fun _ => 0)).2.1 ≤ 3) :=
  ⟨rfl, by decide⟩

/-- C2 (amended): the retry helper invokes the operation at most
maxRetries + 1 times (one initial attempt plus maxRetries retries, so 4 by
default), and when every attempt fails it performs exactly maxRetries + 1
invocations, sleeps delay * 2^m + jitter between consecutive attempts
(exponentially doubling base delay plus jitter), and surfaces the last
error. -/
theorem retry_behavior (op : Nat → Except E A) (retries delay : Nat)
    (jitter : Nat → Nat) :
    (Cache.retry op retries delay jitter).2.1 ≤ retries + 1 ∧
    ∀ e : Nat → E, (∀ i, i ≤ retries → op i = .error (e i)) →
      Cache.retry op retries delay jitter
        = (.error (e retries), retries + 1,
           (List.range retries).map (fun m => delay * 2 ^ m + jitter m)) := by
  constructor
  · exact retryFrom_count_le op jitter retries 0 delay
  · intro e h
    have hall := retryFrom_all_fail op jitter e retries 0 delay
      (fun j _ h2 => h j (by omega))
    rw [Cache.retry, hall]
    simp

/-- Witness for C2 at a concrete input: two retries at base delay 100 with
constant jitter 1 give 3 invocations and waits 101 and 201. -/
theorem retry_behavior_witness :
    (Cache.retry (fun _ => (Except.error 7 : Except Nat Unit)) 2 100
      (fun _ => 1)).2.1 ≤ 3 ∧
    Cache.retry (fun _ => (Except.error 7 : Except Nat Unit)) 2 100 (fun _ => 1)
      = (.error 7, 3, [101, 201]) := by
  have h := retry_behavior (fun _ => (Except.error 7 : Except Nat Unit)) 2 100
    (fun _ => 1)
  refine ⟨h.1, ?_⟩
  rw [h.2 (fun _ => 7) (fun _ _ => rfl)]
  rfl

/- ===== C3 ===== -/

/-- C3: evaluation at the failing input.  RedisAdapter.delete reports true
for a key that was never present, and after set followed by two deletes
both calls report true even though the second removed nothing (the DEL
count is ignored), while the repo's delete test expects false for an
absent key; the post-states of the two deletes do agree and neither call
is an error. -/
theorem redisAdapter_delete_ignores_presence :
    (RedisAdapter.delete "test" {} "missing" none).1 = true ∧
    rget ({} : RStore) (getKeyB "test" "missing" none) = none ∧
    ((RedisAdapter.delete "cache"
        (RedisAdapter.set "cache" {} "k" (.str "v") none none).1 "k" none).1
      = true) ∧
    ((RedisAdapter.delete "cache"
        (RedisAdapter.delete "cache"
          (RedisAdapter.set "cache" {} "k" (.str "v") none none).1 "k" none).2
        "k" none).1 = true) ∧
    ((RedisAdapter.delete "cache"
        (RedisAdapter.delete "cache"
          (RedisAdapter.set "cache" {} "k" (.str "v") none none).1 "k" none).2
        "k" none).2
      = (RedisAdapter.delete "cache"
          (RedisAdapter.set "cache" {} "k" (.str "v") none none).1 "k" none).2) :=
  ⟨rfl, rfl, rfl, rfl, rfl⟩

/- ===== C4 ===== -/

theorem validateAll_error_of_mem (vs : List JVal)
    (hbad : ∃ v ∈ vs, v = JVal.undefined) :
    validateAll vs = .error "Invalid value: Cannot cache undefined values" := by
  induction vs with
  | nil =>
    rcases hbad with ⟨v, hv, _⟩
    cases hv
  | cons w ws ih =>
    rcases hbad with ⟨v, hv, hveq⟩
    subst hveq
    rcases List.mem_cons.mp hv with h | h
    · simp only [validateAll]
      rw [← h]
      rfl
    · simp only [validateAll]
      cases hw : Cache.validateValue w with
      | error e =>
        simp only [Cache.validateValue] at hw
        split at hw
        · injection hw with he
          rw [← he]
        · cases hw
      | ok u => exact ih ⟨_, h, rfl⟩

/-- C4: the manager's mset validates every value of the batch before any
write is issued, so a batch containing an invalid (undefined) value aborts
with the validation error, emits a single error event, and leaves the
store completely unchanged. -/
theorem mset_validates_before_write (ns : String) (st : RStore)
    (data : List (String × JVal)) (hash : Option String) (ttl : Option Int)
    (hbad : ∃ p ∈ data, p.2 = JVal.undefined) :
    Cache.mset ns st data hash ttl
      = (.error "Invalid value: Cannot cache undefined values", st,
         [MEvent.errorEv]) := by
  have hv : validateAll (data.map Prod.snd)
      = .error "Invalid value: Cannot cache undefined values" := by
    apply validateAll_error_of_mem
    rcases hbad with ⟨p, hp, he⟩
    exact ⟨p.2, List.mem_map_of_mem _ hp, he⟩
  simp only [Cache.mset, hv]

/-- Witness for C4 at a concrete input: a two-entry batch whose second value
is undefined aborts with nothing written. -/
theorem mset_validates_before_write_witness :
    Cache.mset "cache" {} [("a", .num 1), ("b", .undefined)] none none
      = (.error "Invalid value: Cannot cache undefined values", {},
         [MEvent.errorEv]) :=
  mset_validates_before_write "cache" {} [("a", .num 1), ("b", .undefined)] none none
    ⟨("b", .undefined), List.mem_cons_of_mem _ (List.mem_cons_self _ _), rfl⟩

/- ===== C5 ===== -/

theorem buildKeys_length (cfg : RedisCfg) (opts : CacheOptions) :
    ∀ (keys rks : List String), buildKeys cfg opts keys = .ok rks →
      rks.length = keys.length
  | [], rks, h => by
    simp only [buildKeys] at h
    injection h with h
    rw [← h]
  | k :: ks, rks, h => by
    simp only [buildKeys] at h
    cases hbk : buildKey cfg k opts with
    | error e =>
      rw [hbk] at h
      simp only [Bind.bind, Except.bind] at h
      cases h
    | ok rk =>
      rw [hbk] at h
      simp only [Bind.bind, Except.bind] at h
      cases hbs : buildKeys cfg opts ks with
      | error e =>
        rw [hbs] at h
        cases h
      | ok rks2 =>
        rw [hbs] at h
        injection h with h
        rw [← h]
        simp [buildKeys_length cfg opts ks rks2 hbs]

/-- C5: mget returns exactly one result per requested key in order: the
result list has the length of the key list, and at every index whose key
is absent from the store, or whose stored envelope carries an expiresAt in
the past at read time, the result is null, while a live stored envelope
yields its data field at the same index. -/
theorem mget_length_order_nulls (cfg : RedisCfg) (st : RStore)
    (keys : List String) (opts : CacheOptions) (now : Int) :
    (Redis.mget cfg st keys opts now).1.length = keys.length ∧
    ∀ rks : List String, buildKeys cfg opts keys = .ok rks →
      ∀ i rk, rks.get? i = some rk →
        (rget st rk = none →
          (Redis.mget cfg st keys opts now).1.get? i = some JVal.null) ∧
        (∀ s entry, rget st rk = some s →
          deserializeValue cfg.toCodecCfg s = some entry →
          entryExpired entry now = true →
          (Redis.mget cfg st keys opts now).1.get? i = some JVal.null) ∧
        (∀ s fs, rget st rk = some s → s ≠ "" →
          deserializeValue cfg.toCodecCfg s = some (JVal.obj fs) →
          entryExpired (JVal.obj fs) now = false →
          (Redis.mget cfg st keys opts now).1.get? i
            = some (jfield (JVal.obj fs) "data")) := by
  cases hb : buildKeys cfg opts keys with
  | error e =>
    constructor
    · simp [Redis.mget, hb]
    · intro rks hok
      cases hok
  | ok rks =>
    have hres : ∀ i rk, rks.get? i = some rk →
        (Redis.mget cfg st keys opts now).1.get? i
          = some ((mgetOne cfg.toCodecCfg now (rget st rk)).1) := by
      intro i rk hget
      simp only [Redis.mget, hb]
      rw [List.map_map, List.get?_eq_getElem?, List.getElem?_map,
        ← List.get?_eq_getElem?, hget]
      rfl
    constructor
    · simp only [Redis.mget, hb]
      rw [List.map_map, List.length_map]
      exact buildKeys_length cfg opts keys rks hb
    · intro rks2 hok
      injection hok with hok
      subst hok
      intro i rk hget
      refine ⟨?_, ?_, ?_⟩
      · intro h0
        rw [hres i rk hget, h0]
        rfl
      · intro s entry hs hd hex
        rw [hres i rk hget, hs]
        by_cases hse : s = ""
        · simp [mgetOne, hse]
        · cases entry <;> simp [mgetOne, hse, hd, hex]
      · intro s fs hs hse hd hex
        rw [hres i rk hget, hs]
        simp [mgetOne, hse, hd, hex]

/-- Witness for C5 at a concrete input: three keys where a is live, b is
expired and c absent give results [va, null, null] in order. -/
theorem mget_length_order_nulls_witness :
    (Redis.mget c5Cfg c5Store ["a", "b", "c"] {} 50).1.length = 3 ∧
    (Redis.mget c5Cfg c5Store ["a", "b", "c"] {} 50).1.get? 0
      = some (JVal.str "va") ∧
    (Redis.mget c5Cfg c5Store ["a", "b", "c"] {} 50).1.get? 1
      = some JVal.null ∧
    (Redis.mget c5Cfg c5Store ["a", "b", "c"] {} 50).1.get? 2
      = some JVal.null := by
  have h := mget_length_order_nulls c5Cfg c5Store ["a", "b", "c"] {} 50
  have hb : buildKeys c5Cfg {} ["a", "b", "c"]
      = .ok ["cache:cache:a", "cache:cache:b", "cache:cache:c"] := rfl
  have h2 := h.2 _ hb
  refine ⟨h.1, ?_, ?_, ?_⟩
  · have := (h2 0 "cache:cache:a" rfl).2.2 "A"
      [("data", .str "va"), ("expiresAt", .num 99)] rfl (by decide) rfl rfl
    simpa using this
  · exact (h2 1 "cache:cache:b" rfl).2.1 "B"
      (.obj [("data", .str "vb"), ("expiresAt", .num 10)]) rfl rfl rfl
  · exact (h2 2 "cache:cache:c" rfl).1 rfl

/- ===== C6 ===== -/

/-- C6: flushByTags removes every key indexed under any of the given tags
(union semantics, deduplicated), deletes the tag index structures
themselves, and leaves untouched every key that is neither indexed under
one of the given tags nor itself one of their index keys — in particular
keys merely sharing a namespace with a removed key. -/
theorem flushByTags_union_and_isolation (cfg : RedisCfg) (st : RStore)
    (tags : List String) :
    (∀ k, (∃ t ∈ tags, k ∈ rsmembers st (cfg.tagPfx ++ t)) →
        rget (Redis.flushByTags cfg st tags).1 k = none) ∧
    (∀ t ∈ tags,
        alGet (Redis.flushByTags cfg st tags).1.tagSets (cfg.tagPfx ++ t) = none) ∧
    (∀ k, (∀ t ∈ tags, k ∉ rsmembers st (cfg.tagPfx ++ t)) →
        (∀ t ∈ tags, k ≠ cfg.tagPfx ++ t) →
        rget (Redis.flushByTags cfg st tags).1 k = rget st k) := by
  have hst1 : tags.foldl (fun s t => (rdel s (cfg.tagPfx ++ t)).1) st
      = (tags.map (fun t => cfg.tagPfx ++ t)).foldl (fun s j => (rdel s j).1) st := by
    rw [List.foldl_map]
  refine ⟨?_, ?_, ?_⟩
  · intro k hk
    rcases hk with ⟨t, ht, hmem⟩
    have hall : k ∈ ((tags.map (fun t => rsmembers st (cfg.tagPfx ++ t))).flatten).dedup := by
      rw [List.mem_dedup, List.mem_flatten]
      exact ⟨rsmembers st (cfg.tagPfx ++ t), List.mem_map_of_mem _ ht, hmem⟩
    simp only [Redis.flushByTags]
    rw [rget_foldl_rdel, if_pos hall]
  · intro t ht
    simp only [Redis.flushByTags]
    rw [tsGet_foldl_rdel]
    by_cases hmem : cfg.tagPfx ++ t
        ∈ ((tags.map (fun t => rsmembers st (cfg.tagPfx ++ t))).flatten).dedup
    · rw [if_pos hmem]
    · rw [if_neg hmem, hst1, tsGet_foldl_rdel,
        if_pos (List.mem_map_of_mem _ ht)]
  · intro k hnotmem hnottag
    simp only [Redis.flushByTags]
    have hnall : k ∉ ((tags.map (fun t => rsmembers st (cfg.tagPfx ++ t))).flatten).dedup := by
      rw [List.mem_dedup, List.mem_flatten]
      rintro ⟨l, hl, hkl⟩
      rcases List.mem_map.mp hl with ⟨t, ht, hlt⟩
      exact hnotmem t ht (hlt ▸ hkl)
    have hnmap : k ∉ tags.map (fun t => cfg.tagPfx ++ t) := by
      intro hk
      rcases List.mem_map.mp hk with ⟨t, ht, hkt⟩
      exact hnottag t ht hkt.symm
    rw [rget_foldl_rdel, if_neg hnall, hst1, rget_foldl_rdel, if_neg hnmap]

/-- Witness for C6 at a concrete input: flushing tag g removes the indexed
key a, drops the index tag:g, and leaves the same-namespace key b
untouched. -/
theorem flushByTags_union_and_isolation_witness :
    rget (Redis.flushByTags counterCfg
        { kv := [("cache:cache:a", "A"), ("cache:cache:b", "B")],
          tagSets := [("tag:g", ["cache:cache:a"])] } ["g"]).1 "cache:cache:a"
      = none ∧
    alGet (Redis.flushByTags counterCfg
        { kv := [("cache:cache:a", "A"), ("cache:cache:b", "B")],
          tagSets := [("tag:g", ["cache:cache:a"])] } ["g"]).1.tagSets "tag:g"
      = none ∧
    rget (Redis.flushByTags counterCfg
        { kv := [("cache:cache:a", "A"), ("cache:cache:b", "B")],
          tagSets := [("tag:g", ["cache:cache:a"])] } ["g"]).1 "cache:cache:b"
      = some "B" := by
  have h := flushByTags_union_and_isolation counterCfg
    { kv := [("cache:cache:a", "A"), ("cache:cache:b", "B")],
      tagSets := [("tag:g", ["cache:cache:a"])] } ["g"]
  refine ⟨?_, ?_, ?_⟩
  · exact h.1 "cache:cache:a" ⟨"g", List.mem_cons_self _ _, by decide⟩
  · exact h.2.1 "g" (List.mem_cons_self _ _)
  · have := h.2.2 "cache:cache:b"
      (by
        intro t ht
        rcases List.mem_cons.mp ht with h1 | h1
        · subst h1
          decide
        · cases h1)
      (by
        intro t ht
        rcases List.mem_cons.mp ht with h1 | h1
        · subst h1
          decide
        · cases h1)
    rw [this]
    rfl

/- ===== C7 ===== -/

/-- C7: evaluation at the failing input.  On a fresh key, increment by 5
returns 5 and decrement by 2 returns 3 as claimed, but the enhanced get of
the counter then returns undefined (the data field of the bare number 3
that INCRBY stores), not 3, and the adapter re-applies the effective TTL
on EVERY increment call, not only on first creation of the counter. -/
theorem increment_decrement_get_scenario :
    ∃ st1 st2 st3,
      Redis.increment counterCfg {} "counter" 5 {} = .ok (5, st1) ∧
      Redis.decrement counterCfg st1 "counter" 2 {} = .ok (3, st2) ∧
      (Redis.get counterCfg st2 "counter" {} 0).1 = JVal.undefined ∧
      (Redis.get counterCfg st2 "counter" {} 0).1 ≠ JVal.num 3 ∧
      alGet st2.ttls "cache:cache:counter" = some 3600 ∧
      Redis.increment counterCfg st2 "counter" 1 { ttl := some 7200 } = .ok (4, st3) ∧
      alGet st3.ttls "cache:cache:counter" = some 7200 := by
  refine ⟨{ kv := [("cache:cache:counter", "5")],
            ttls := [("cache:cache:counter", 3600)] },
          { kv := [("cache:cache:counter", "3")],
            ttls := [("cache:cache:counter", 3600)] },
          { kv := [("cache:cache:counter", "4")],
            ttls := [("cache:cache:counter", 7200)] },
          ?_, ?_, ?_, ?_, ?_, ?_, ?_⟩
  · rfl
  · rfl
  · rfl
  · intro h
    exact JVal.noConfusion h
  · rfl
  · rfl
  · rfl

/- ===== C8 ===== -/

/-- C8: when the backend operation fails on every attempt even after all
retries, the legacy manager get emits the error event exactly once for the
whole operation (the retry loop itself emits nothing) and returns the null
sentinel instead of raising, while the enhanced cache get re-raises the
adapter error to the caller. -/
theorem failed_get_error_once (adapterGet : Nat → Except String (Option JVal))
    (retries delay : Nat) (jitter : Nat → Nat) (e : Nat → String)
    (hfail : ∀ i, i ≤ retries → adapterGet i = .error (e i))
    (enhGet : String → CacheOptions → Except String JVal) (cs : Bool)
    (dns key : String) (opts : CacheOptions) (err : String)
    (henh : enhGet (normalizeKeyE cs key) (withNs dns opts) = .error err) :
    Cache.get adapterGet retries delay jitter = (none, [MEvent.errorEv]) ∧
    EnhCache.get enhGet cs dns key opts = (.error err, ["get_error"]) := by
  constructor
  · have hr := retryFrom_all_fail adapterGet jitter e retries 0 delay
      (fun j _ h2 => hfail j (by omega))
    simp only [Cache.get, Cache.retry, hr]
  · simp only [EnhCache.get, henh]

/-- Witness for C8 at a concrete input: a backend that is persistently down
yields (null, one error event) on the legacy path and a re-raised error on
the enhanced path. -/
theorem failed_get_error_once_witness :
    Cache.get (fun _ => (.error "down" : Except String (Option JVal))) 3 100
      (fun _ => 0) = (none, [MEvent.errorEv]) ∧
    EnhCache.get (fun _ _ => (.error "down" : Except String JVal)) false
      "default" "K" {} = (.error "down", ["get_error"]) :=
  failed_get_error_once (fun _ => .error "down") 3 100 (fun _ => 0)
    (fun _ => "down") (fun _ _ => rfl)
    (fun _ _ => .error "down") false "default" "K" {} "down" rfl

/- ===== C9 ===== -/

set_option maxRecDepth 4000 in
/-- C9 counterexample: a raw key of 240 characters is at or under the
adapter's 250-character limit, yet buildKey rejects it, because the length
check is applied AFTER the adapter key prefix and namespace are
prepended — refuting "a raw key at or under the limit is never rejected
for length". -/
theorem buildKey_rejects_short_raw_key :
    k240.length ≤ 250 ∧ exOk (buildKey {} k240 {}) = false := by
  constructor
  · decide
  · rfl

/-- C9 (amended): key-length validation happens at two layers with
different subjects: the manager's normalizeKey fails exactly when the RAW
key exceeds its configured maxKeyLength, before any prefixing, whereas the
Redis adapter's buildKey fails exactly when the FULL prefixed key
(keyPrefix + namespace + ":" + key) exceeds the adapter's maxKeyLength, so
a raw key at or under that limit can still be rejected once prefixed. -/
theorem key_length_validation (maxKeyLength : Nat) (cs : Bool) (key : String)
    (cfg : RedisCfg) (opts : CacheOptions) :
    exOk (Cache.normalizeKey maxKeyLength cs key)
      = decide (key.length ≤ maxKeyLength) ∧
    exOk (buildKey cfg key opts)
      = decide ((cfg.keyPfx ++ jsOrStr opts.nsOpt cfg.ns ++ ":" ++ key).length
          ≤ cfg.maxKeyLength) := by
  constructor
  · simp only [Cache.normalizeKey]
    by_cases h : key.length > maxKeyLength
    · have hn : ¬ key.length ≤ maxKeyLength := by omega
      rw [if_pos h]
      exact (decide_eq_false hn).symm
    · have hy : key.length ≤ maxKeyLength := by omega
      rw [if_neg h]
      exact (decide_eq_true hy).symm
  · simp only [buildKey]
    by_cases h : (cfg.keyPfx ++ jsOrStr opts.nsOpt cfg.ns ++ ":" ++ key).length
        > cfg.maxKeyLength
    · have hn : ¬ (cfg.keyPfx ++ jsOrStr opts.nsOpt cfg.ns ++ ":" ++ key).length
          ≤ cfg.maxKeyLength := by omega
      rw [if_pos h]
      exact (decide_eq_false hn).symm
    · have hy : (cfg.keyPfx ++ jsOrStr opts.nsOpt cfg.ns ++ ":" ++ key).length
          ≤ cfg.maxKeyLength := by omega
      rw [if_neg h]
      exact (decide_eq_true hy).symm

/- ===== C10 ===== -/

/-- C10: the enhanced adapter's legacy save rejects data strictly equal to
undefined or null with false and writes nothing, and the basic memory and
legacy redis adapters reject EVERY falsy data value (undefined, null,
false, 0, empty string) the same way, so such values cannot be stored
through the legacy save at all. -/
theorem legacy_save_falsy (cfg : RedisCfg) (stR stH : RStore)
    (stM : List (String × MemEntry)) (key hash : String) (dE dB : JVal)
    (nowE nowB : Int)
    (hE : dE = JVal.undefined ∨ dE = JVal.null)
    (hB : jsTruthy dB = false) :
    Redis.save cfg stR key dE hash nowE = (false, stR) ∧
    Memory.save stM key dB nowB = (.bool false, stM) ∧
    RedisL.save stH key dB hash nowB = (.bool false, stH) := by
  refine ⟨?_, ?_, ?_⟩
  · rcases hE with h | h <;> subst h <;>
      simp [Redis.save, JVal.isUndefined, JVal.isNull]
  · simp [Memory.save, hB]
  · simp [RedisL.save, hB]

/-- Witness for C10 at concrete inputs: null through the enhanced legacy
save, and the falsy number 0 through the basic adapters. -/
theorem legacy_save_falsy_witness :
    Redis.save {} {} "k" JVal.null "" 0 = (false, {}) ∧
    Memory.save [] "k" (JVal.num 0) 0 = (.bool false, []) ∧
    RedisL.save {} "k" (JVal.num 0) "h" 0 = (.bool false, {}) :=
  legacy_save_falsy {} {} {} [] "k" "" JVal.null (JVal.num 0) 0 0
    (Or.inr rfl) rfl

end NuvixCache
